import Mathlib

/-!
Shallow embedding of the NeoPixel LED-sign controller (`src/main.py`) and
verification of its specification's claims.

The animation engine manipulates exact rational color arithmetic (Python
floats are modelled by `ℚ`, and the transcendental `math.sin` of the fade
mode by `Real.sin`).  Python's `int(...)` truncation toward zero is `pyint` /
`pyintR`, and Python's `%` on a positive modulus is `pymod`.
-/

/-- An RGB triple as produced by the script: plain machine integers
(channel values are unbounded `int`s in Python; validity `0..255` is a
separate predicate). -/
structure RGB where
  r : ℤ
  g : ℤ
  b : ℤ
deriving DecidableEq, Repr

/-- A color is valid when every channel lies in `[0, 255]`. -/
def RGB.valid (c : RGB) : Prop :=
  0 ≤ c.r ∧ c.r ≤ 255 ∧ 0 ≤ c.g ∧ c.g ≤ 255 ∧ 0 ≤ c.b ∧ c.b ≤ 255

instance (c : RGB) : Decidable c.valid := by
  unfold RGB.valid; infer_instance

/-- Python `int(x)`: truncation toward zero, on exact rationals. -/
def pyint (q : ℚ) : ℤ :=
  if 0 ≤ q then ⌊q⌋ else -⌊-q⌋

/-- Python `int(x)`: truncation toward zero, on reals (used where the
source computes with `math.sin`). -/
noncomputable def pyintR (x : ℝ) : ℤ :=
  if 0 ≤ x then ⌊x⌋ else -⌊-x⌋

/-- Python `a % b` on rationals: `a - b * floor (a / b)` (for `b > 0` the
result lies in `[0, b)`, matching Python's sign convention). -/
def pymod (a b : ℚ) : ℚ :=
  a - b * ⌊a / b⌋

/-- `blend_color(c1, c2, factor)` from `src/main.py` lines 66-78:
per-channel `int((1 - factor) * c1 + factor * c2)`.  The factor is not
clamped. -/
def blend_color (c1 c2 : RGB) (factor : ℚ) : RGB :=
  { r := pyint ((1 - factor) * c1.r + factor * c2.r)
    g := pyint ((1 - factor) * c1.g + factor * c2.g)
    b := pyint ((1 - factor) * c1.b + factor * c2.b) }

/-- The sector selection of `hsv_to_rgb` (`src/main.py` lines 95-106): the
chain of `if 0 <= h < 60 ... elif ... else` producing `(rp, gp, bp)`. -/
def hsvSector (h c x : ℚ) : ℚ × ℚ × ℚ :=
  if 0 ≤ h ∧ h < 60 then (c, x, 0)
  else if 60 ≤ h ∧ h < 120 then (x, c, 0)
  else if 120 ≤ h ∧ h < 180 then (0, c, x)
  else if 180 ≤ h ∧ h < 240 then (0, x, c)
  else if 240 ≤ h ∧ h < 300 then (x, 0, c)
  else (c, 0, x)

/-- `hsv_to_rgb(h, s, v)` from `src/main.py` lines 80-110:
`c = v*s`, `x = c * (1 - abs((h / 60.0) % 2 - 1))`, `m = v - c`, sector
selection on the raw hue, then per-channel `int((component + m) * 255)`. -/
def hsv_to_rgb (h s v : ℚ) : RGB :=
  let c := v * s
  let x := c * (1 - |pymod (h / 60) 2 - 1|)
  let m := v - c
  let p := hsvSector h c x
  { r := pyint ((p.1 + m) * 255)
    g := pyint ((p.2.1 + m) * 255)
    b := pyint ((p.2.2 + m) * 255) }

/-- Modelled from the spec (§4.1): the spec's HSV conversion, identical
decomposition but with output channels `round((component + match) * 255)`
clamped to `[0, 255]` — to be compared with the source's `hsv_to_rgb`. -/
def specHsvToRgb (h s v : ℚ) : RGB :=
  let c := v * s
  let x := c * (1 - |pymod (h / 60) 2 - 1|)
  let m := v - c
  let p := hsvSector h c x
  { r := max 0 (min 255 (round ((p.1 + m) * 255)))
    g := max 0 (min 255 (round ((p.2.1 + m) * 255)))
    b := max 0 (min 255 (round ((p.2.2 + m) * 255))) }

/-- One entry of `letter_configs`: a letter label and its LED indices. -/
structure LetterConfig where
  letter : String
  leds : List ℕ
deriving DecidableEq, Repr

/-- `letter_configs` from `src/main.py` lines 33-43: the sign "AWARENESS",
nine letters of 19 LEDs each (`list(range(a, b))` is `List.range' a (b-a)`). -/
def letter_configs : List LetterConfig :=
  [⟨"A", List.range' 0 19⟩,
   ⟨"W", List.range' 19 19⟩,
   ⟨"A", List.range' 38 19⟩,
   ⟨"R", List.range' 57 19⟩,
   ⟨"E", List.range' 76 19⟩,
   ⟨"N", List.range' 95 19⟩,
   ⟨"E", List.range' 114 19⟩,
   ⟨"S", List.range' 133 19⟩,
   ⟨"S", List.range' 152 19⟩]

/-- Python `max` over a list of naturals (source uses it on nonempty lists
only, where the `0` seed is harmless). -/
def listMax (l : List ℕ) : ℕ :=
  l.foldl max 0

/-- One iteration of the `NUM_LEDS` derivation loop (`src/main.py`
lines 47-51): `if cfg["leds"]: ... if max_led + 1 > NUM_LEDS: NUM_LEDS =
max_led + 1`. -/
def numLedsStep (n : ℕ) (cfg : LetterConfig) : ℕ :=
  if cfg.leds ≠ [] then
    (if listMax cfg.leds + 1 > n then listMax cfg.leds + 1 else n)
  else n

/-- The `NUM_LEDS` derivation loop from `src/main.py` lines 46-51, starting
from `NUM_LEDS = 0`. -/
def numLeds (configs : List LetterConfig) : ℕ :=
  configs.foldl numLedsStep 0

/-- `NUM_LEDS` for the reference configuration. -/
def NUM_LEDS : ℕ := numLeds letter_configs

/-- `warm_white` from `src/main.py` line 170. -/
def warm_white : RGB := ⟨255, 244, 229⟩

/-- `wave_colors` from `src/main.py` line 171: blue, green, yellow. -/
def wave_colors : List RGB := [⟨0, 0, 255⟩, ⟨0, 255, 0⟩, ⟨255, 255, 0⟩]

/-- The wave position of `mode_wave_effect` (`src/main.py` lines 177-178):
`phase = (current_time % wave_period_ms) / wave_period_ms` and
`wave_pos = phase * NUM_LEDS`.  Note the phase is computed from the
absolute tick clock `current_time`, not from `current_time - start_time`. -/
def wavePos (currentTime : ℕ) : ℚ :=
  ((currentTime % 10000 : ℕ) : ℚ) / 10000 * (NUM_LEDS : ℚ)

/-- The wave color selection (`src/main.py` line 180):
`wave_colors[int(wave_pos) % len(wave_colors)]`. -/
def waveColor (currentTime : ℕ) : RGB :=
  wave_colors.get
    ⟨(pyint (wavePos currentTime) % (wave_colors.length : ℤ)).toNat, by
      have hlen : wave_colors.length = 3 := rfl
      have h1 := Int.emod_nonneg (pyint (wavePos currentTime))
        (by rw [hlen]; norm_num : ((wave_colors.length : ℤ)) ≠ 0)
      have h2 := Int.emod_lt_of_pos (pyint (wavePos currentTime))
        (by rw [hlen]; norm_num : (0 : ℤ) < (wave_colors.length : ℤ))
      omega⟩

/-- The per-LED color of one `mode_wave_effect` frame (`src/main.py`
lines 182-188): blend toward the wave color inside the threshold radius,
warm white outside. -/
def waveLedColor (currentTime : ℕ) (i : ℕ) : RGB :=
  let distance := |(i : ℚ) - wavePos currentTime|
  if distance < 3 then
    blend_color warm_white (waveColor currentTime) (1 - distance / 3)
  else
    warm_white

/-- One full frame of `mode_wave_effect` (`src/main.py` lines 181-189):
the loop `for i in range(NUM_LEDS)` assigns `waveLedColor` to every
position. -/
def waveFrame (currentTime : ℕ) : List RGB :=
  (List.range NUM_LEDS).map (waveLedColor currentTime)

/-- The fade-mode brightness (`src/main.py` line 149):
`(sin(2 * pi * (t / period) + phase) + 1) / 2` with `period = 5.0`. -/
noncomputable def brightness (t phase : ℝ) : ℝ :=
  (Real.sin (2 * Real.pi * (t / 5) + phase) + 1) / 2

/-- Per-channel scaling of a base color by a brightness
(`src/main.py` lines 150-154): `int(channel * brightness)`. -/
noncomputable def fadeScaled (base : RGB) (b : ℝ) : RGB :=
  ⟨pyintR (base.r * b), pyintR (base.g * b), pyintR (base.b * b)⟩

/-- The `color_map` of `mode_fade_letters` (`src/main.py` lines 126-133),
with the `.get(..., (255, 255, 255))` white fallback. -/
def colorMap (letter : String) : RGB :=
  if letter = "A" then ⟨255, 0, 0⟩
  else if letter = "W" then ⟨0, 255, 0⟩
  else if letter = "R" then ⟨0, 0, 255⟩
  else if letter = "E" then ⟨255, 255, 0⟩
  else if letter = "N" then ⟨0, 255, 255⟩
  else if letter = "S" then ⟨255, 0, 255⟩
  else ⟨255, 255, 255⟩

/-- The inner loop of `mode_fade_letters` (`src/main.py` lines 156-157):
`for led in cfg["leds"]: np[led] = scaled_color` — write one color to a
set of buffer positions. -/
def segPass (color : RGB) (leds : List ℕ) (buf : List RGB) : List RGB :=
  leds.foldl (fun b led => b.set led color) buf

/-- A sequence of (color, index list) write passes over the buffer. -/
def runPasses (ps : List (RGB × List ℕ)) (buf : List RGB) : List RGB :=
  ps.foldl (fun b p => segPass p.1 p.2 b) buf

/-- The per-segment frame data of `mode_fade_letters` (`src/main.py`
lines 146-154): for each config (paired with its random phase offset drawn
at activation), the scaled color and the segment's LED indices. -/
noncomputable def fadePasses (configs : List LetterConfig) (phases : List ℝ)
    (t : ℝ) : List (RGB × List ℕ) :=
  (configs.zip phases).map
    (fun p => (fadeScaled (colorMap p.1.letter) (brightness t p.2), p.1.leds))

/-- One full frame of `mode_fade_letters` (`src/main.py` lines 146-158):
run every segment's write pass over the previous buffer contents. -/
noncomputable def fadeFrame (configs : List LetterConfig) (phases : List ℝ)
    (t : ℝ) (buf : List RGB) : List RGB :=
  runPasses (fadePasses configs phases t) buf

/-- The set of buffer indices written by one `mode_fade_letters` frame:
exactly the indices listed in the segments. -/
def fadeWrittenIndices (configs : List LetterConfig) : List ℕ :=
  (configs.map (fun cfg => cfg.leds)).flatten

/-! ### Arithmetic helper lemmas -/

lemma pyint_intCast (n : ℤ) : pyint (n : ℚ) = n := by
  unfold pyint
  split
  · exact Int.floor_intCast n
  · rw [← Int.cast_neg, Int.floor_intCast]; ring

lemma pyintR_intCast (n : ℤ) : pyintR (n : ℝ) = n := by
  unfold pyintR
  split
  · exact Int.floor_intCast n
  · rw [← Int.cast_neg, Int.floor_intCast]; ring

lemma pyint_eq_floor {q : ℚ} (h : 0 ≤ q) : pyint q = ⌊q⌋ := by
  unfold pyint; rw [if_pos h]

lemma pymod_eq_fract (a b : ℚ) (hb : b ≠ 0) : pymod a b = b * Int.fract (a / b) := by
  unfold pymod Int.fract
  field_simp

lemma pymod_nonneg (a b : ℚ) (hb : 0 < b) : 0 ≤ pymod a b := by
  rw [pymod_eq_fract a b (ne_of_gt hb)]
  exact mul_nonneg hb.le (Int.fract_nonneg _)

lemma pymod_lt (a b : ℚ) (hb : 0 < b) : pymod a b < b := by
  rw [pymod_eq_fract a b (ne_of_gt hb)]
  calc b * Int.fract (a / b) < b * 1 :=
        (mul_lt_mul_left hb).mpr (Int.fract_lt_one _)
    _ = b := mul_one b

lemma pymod_sub_two_int (a : ℚ) (k : ℤ) : pymod (a - 2 * k) 2 = pymod a 2 := by
  unfold pymod
  have h : (a - 2 * k) / 2 = a / 2 - k := by ring
  rw [h, Int.floor_sub_int]
  push_cast
  ring

lemma hsvSector_last (h c x : ℚ) (hh : h < 0 ∨ 300 ≤ h) :
    hsvSector h c x = (c, 0, x) := by
  have h1 : ¬(0 ≤ h ∧ h < 60) := by rcases hh with hh | hh <;> rintro ⟨a, b⟩ <;> linarith
  have h2 : ¬(60 ≤ h ∧ h < 120) := by rcases hh with hh | hh <;> rintro ⟨a, b⟩ <;> linarith
  have h3 : ¬(120 ≤ h ∧ h < 180) := by rcases hh with hh | hh <;> rintro ⟨a, b⟩ <;> linarith
  have h4 : ¬(180 ≤ h ∧ h < 240) := by rcases hh with hh | hh <;> rintro ⟨a, b⟩ <;> linarith
  have h5 : ¬(240 ≤ h ∧ h < 300) := by rcases hh with hh | hh <;> rintro ⟨a, b⟩ <;> linarith
  simp only [hsvSector, h1, h2, h3, h4, h5, if_false]

lemma hsvSector_comp_bounds (h c x : ℚ) (hc : 0 ≤ c) (hx : 0 ≤ x) (hxc : x ≤ c) :
    (0 ≤ (hsvSector h c x).1 ∧ (hsvSector h c x).1 ≤ c) ∧
    (0 ≤ (hsvSector h c x).2.1 ∧ (hsvSector h c x).2.1 ≤ c) ∧
    (0 ≤ (hsvSector h c x).2.2 ∧ (hsvSector h c x).2.2 ≤ c) := by
  unfold hsvSector
  split
  · exact ⟨⟨hc, le_refl c⟩, ⟨hx, hxc⟩, ⟨le_refl 0, hc⟩⟩
  split
  · exact ⟨⟨hx, hxc⟩, ⟨hc, le_refl c⟩, ⟨le_refl 0, hc⟩⟩
  split
  · exact ⟨⟨le_refl 0, hc⟩, ⟨hc, le_refl c⟩, ⟨hx, hxc⟩⟩
  split
  · exact ⟨⟨le_refl 0, hc⟩, ⟨hx, hxc⟩, ⟨hc, le_refl c⟩⟩
  split
  · exact ⟨⟨hx, hxc⟩, ⟨le_refl 0, hc⟩, ⟨hc, le_refl c⟩⟩
  · exact ⟨⟨hc, le_refl c⟩, ⟨le_refl 0, hc⟩, ⟨hx, hxc⟩⟩

lemma pyint_chan_bounds {q : ℚ} (h0 : 0 ≤ q) (h1 : q ≤ 255) :
    0 ≤ pyint q ∧ pyint q ≤ 255 := by
  rw [pyint_eq_floor h0]
  constructor
  · exact Int.le_floor.mpr (by exact_mod_cast h0)
  · have : ⌊q⌋ ≤ ⌊(255 : ℚ)⌋ := Int.floor_le_floor h1
    simpa using this

lemma roundClamp_chan_rel {q : ℚ} (h0 : 0 ≤ q) (h1 : q ≤ 255) :
    max 0 (min 255 (round q)) - 1 ≤ pyint q ∧ pyint q ≤ max 0 (min 255 (round q)) := by
  have hr0 : 0 ≤ round q := by
    rw [round_eq]
    exact Int.le_floor.mpr (by push_cast; linarith)
  have hr255 : round q ≤ 255 := by
    rw [round_eq]
    have : ⌊q + 1 / 2⌋ < 256 := Int.floor_lt.mpr (by push_cast; linarith)
    omega
  have hclamp : max 0 (min 255 (round q)) = round q := by
    rw [min_eq_right hr255, max_eq_right hr0]
  rw [hclamp, pyint_eq_floor h0, round_eq]
  constructor
  · have h2 : ⌊q + 1 / 2⌋ ≤ ⌊q + 1⌋ := Int.floor_le_floor (by linarith)
    rw [Int.floor_add_one] at h2
    omega
  · exact Int.floor_le_floor (by linarith)

lemma blend_color_zero (c1 c2 : RGB) : blend_color c1 c2 0 = c1 := by
  unfold blend_color
  have h : ∀ a b : ℤ, (1 - 0 : ℚ) * a + 0 * b = ((a : ℤ) : ℚ) := by intros; ring
  simp only [h, pyint_intCast]

lemma blend_color_one (c1 c2 : RGB) : blend_color c1 c2 1 = c2 := by
  unfold blend_color
  have h : ∀ a b : ℤ, (1 - 1 : ℚ) * a + 1 * b = ((b : ℤ) : ℚ) := by intros; ring
  simp only [h, pyint_intCast]

/-! ### Buffer-write helper lemmas -/

lemma segPass_cons (color : RGB) (l : ℕ) (ls : List ℕ) (buf : List RGB) :
    segPass color (l :: ls) buf = segPass color ls (buf.set l color) := rfl

lemma runPasses_cons (p : RGB × List ℕ) (ps : List (RGB × List ℕ))
    (buf : List RGB) :
    runPasses (p :: ps) buf = runPasses ps (segPass p.1 p.2 buf) := rfl

lemma segPass_length (color : RGB) (leds : List ℕ) (buf : List RGB) :
    (segPass color leds buf).length = buf.length := by
  induction leds generalizing buf with
  | nil => rfl
  | cons l ls ih =>
    simp only [segPass, List.foldl_cons] at *
    rw [ih (buf.set l color), List.length_set]

lemma segPass_getElem?_notMem (color : RGB) (leds : List ℕ) (buf : List RGB)
    (led : ℕ) (h : led ∉ leds) :
    (segPass color leds buf)[led]? = buf[led]? := by
  induction leds generalizing buf with
  | nil => rfl
  | cons l ls ih =>
    simp only [List.mem_cons, not_or] at h
    simp only [segPass, List.foldl_cons] at *
    rw [ih (buf.set l color) h.2, List.getElem?_set_ne (Ne.symm h.1)]

lemma segPass_getElem?_mem (color : RGB) (leds : List ℕ) (buf : List RGB)
    (led : ℕ) (h : led ∈ leds) (hlen : led < buf.length) :
    (segPass color leds buf)[led]? = some color := by
  induction leds generalizing buf with
  | nil => cases h
  | cons l ls ih =>
    rw [segPass_cons]
    by_cases hmem : led ∈ ls
    · exact ih (buf.set l color) hmem (by rw [List.length_set]; exact hlen)
    · have hl : led = l := by
        rcases List.mem_cons.mp h with h' | h'
        · exact h'
        · exact absurd h' hmem
      subst hl
      rw [segPass_getElem?_notMem color ls (buf.set led color) led hmem]
      rw [List.getElem?_set_self', List.getElem?_eq_getElem hlen]
      rfl

lemma runPasses_length (ps : List (RGB × List ℕ)) (buf : List RGB) :
    (runPasses ps buf).length = buf.length := by
  induction ps generalizing buf with
  | nil => rfl
  | cons p ps ih =>
    simp only [runPasses, List.foldl_cons] at *
    rw [ih (segPass p.1 p.2 buf), segPass_length]

lemma runPasses_getElem?_notMem (ps : List (RGB × List ℕ)) (buf : List RGB)
    (led : ℕ) (h : ∀ p ∈ ps, led ∉ p.2) :
    (runPasses ps buf)[led]? = buf[led]? := by
  induction ps generalizing buf with
  | nil => rfl
  | cons p ps ih =>
    rw [runPasses_cons,
      ih (segPass p.1 p.2 buf) (fun q hq => h q (List.mem_cons_of_mem p hq)),
      segPass_getElem?_notMem _ _ _ _ (h p (List.mem_cons_self p ps))]

lemma runPasses_getElem?_idx (ps : List (RGB × List ℕ)) (buf : List RGB)
    (k led : ℕ) (hk : k < ps.length)
    (hmem : led ∈ (ps.get ⟨k, hk⟩).2)
    (hlater : ∀ j (hj : j < ps.length), k < j → led ∉ (ps.get ⟨j, hj⟩).2)
    (hlen : led < buf.length) :
    (runPasses ps buf)[led]? = some (ps.get ⟨k, hk⟩).1 := by
  induction ps generalizing buf k with
  | nil => cases hk
  | cons p ps ih =>
    rw [runPasses_cons]
    cases k with
    | zero =>
      have hnot : ∀ q ∈ ps, led ∉ q.2 := by
        intro q hq
        obtain ⟨⟨j, hj⟩, rfl⟩ := List.mem_iff_get.mp hq
        exact hlater (j + 1) (Nat.succ_lt_succ hj) (Nat.succ_pos j)
      rw [runPasses_getElem?_notMem ps (segPass p.1 p.2 buf) led hnot]
      exact segPass_getElem?_mem p.1 p.2 buf led hmem hlen
    | succ k' =>
      exact ih (segPass p.1 p.2 buf) k' (Nat.lt_of_succ_lt_succ hk) hmem
        (fun j hj hkj =>
          hlater (j + 1) (Nat.succ_lt_succ hj) (Nat.succ_lt_succ hkj))
        (by rw [segPass_length]; exact hlen)

lemma fadeFrame_getElem?_notWritten (configs : List LetterConfig)
    (phases : List ℝ) (t : ℝ) (buf : List RGB) (i : ℕ)
    (h : i ∉ fadeWrittenIndices configs) :
    (fadeFrame configs phases t buf)[i]? = buf[i]? := by
  apply runPasses_getElem?_notMem
  intro p hp
  simp only [fadePasses, List.mem_map] at hp
  obtain ⟨q, hq, rfl⟩ := hp
  have hq1 : q.1 ∈ configs := (List.of_mem_zip hq).1
  intro hmem
  exact h (List.mem_flatten.mpr ⟨q.1.leds, List.mem_map.mpr ⟨q.1, hq1, rfl⟩, hmem⟩)

/-! ### `numLeds` helper lemmas -/

lemma foldl_max_init (l : List ℕ) (a : ℕ) : a ≤ l.foldl max a := by
  induction l generalizing a with
  | nil => exact le_refl a
  | cons b l ih => exact le_trans (le_max_left a b) (ih (max a b))

lemma foldl_max_mem (l : List ℕ) (a i : ℕ) (h : i ∈ l) : i ≤ l.foldl max a := by
  induction l generalizing a with
  | nil => cases h
  | cons b l ih =>
    rcases List.mem_cons.mp h with h' | h'
    · subst h'
      exact le_trans (le_max_right a i) (foldl_max_init l (max a i))
    · exact ih (max a b) h'

lemma le_listMax (l : List ℕ) (i : ℕ) (h : i ∈ l) : i ≤ listMax l :=
  foldl_max_mem l 0 i h

lemma numLedsStep_le (n : ℕ) (cfg : LetterConfig) : n ≤ numLedsStep n cfg := by
  unfold numLedsStep
  split
  · split <;> omega
  · exact le_refl n

lemma foldl_numLedsStep_init (l : List LetterConfig) (n : ℕ) :
    n ≤ l.foldl numLedsStep n := by
  induction l generalizing n with
  | nil => exact le_refl n
  | cons c l ih => exact le_trans (numLedsStep_le n c) (ih (numLedsStep n c))

lemma foldl_numLedsStep_mem (l : List LetterConfig) (n : ℕ) (cfg : LetterConfig)
    (h : cfg ∈ l) (hne : cfg.leds ≠ []) :
    listMax cfg.leds + 1 ≤ l.foldl numLedsStep n := by
  induction l generalizing n with
  | nil => cases h
  | cons c l ih =>
    rcases List.mem_cons.mp h with h' | h'
    · subst h'
      refine le_trans ?_ (foldl_numLedsStep_init l (numLedsStep n cfg))
      unfold numLedsStep
      rw [if_pos hne]
      split <;> omega
    · exact ih (numLedsStep n c) h'

/-! ### Reference-configuration facts -/

lemma numLeds_letter_configs : numLeds letter_configs = 171 := by decide

lemma letter_configs_leds_lt (k : ℕ) (hk : k < letter_configs.length) :
    ∀ led ∈ (letter_configs.get ⟨k, hk⟩).leds, led < 171 := by
  revert k
  decide

lemma letter_configs_disjoint (k : ℕ) (hk : k < letter_configs.length)
    (j : ℕ) (hj : j < letter_configs.length) (hne : j ≠ k) :
    ∀ led ∈ (letter_configs.get ⟨k, hk⟩).leds,
      led ∉ (letter_configs.get ⟨j, hj⟩).leds := by
  revert k j
  decide

/-! ### HSV channel bound package -/

lemma hsv_exact_bounds (h s v : ℚ) (hs0 : 0 ≤ s) (hs1 : s ≤ 1)
    (hv0 : 0 ≤ v) (hv1 : v ≤ 1) :
    (0 ≤ ((hsvSector h (v * s) (v * s * (1 - |pymod (h / 60) 2 - 1|))).1 + (v - v * s)) * 255 ∧
      ((hsvSector h (v * s) (v * s * (1 - |pymod (h / 60) 2 - 1|))).1 + (v - v * s)) * 255 ≤ 255) ∧
    (0 ≤ ((hsvSector h (v * s) (v * s * (1 - |pymod (h / 60) 2 - 1|))).2.1 + (v - v * s)) * 255 ∧
      ((hsvSector h (v * s) (v * s * (1 - |pymod (h / 60) 2 - 1|))).2.1 + (v - v * s)) * 255 ≤ 255) ∧
    (0 ≤ ((hsvSector h (v * s) (v * s * (1 - |pymod (h / 60) 2 - 1|))).2.2 + (v - v * s)) * 255 ∧
      ((hsvSector h (v * s) (v * s * (1 - |pymod (h / 60) 2 - 1|))).2.2 + (v - v * s)) * 255 ≤ 255) := by
  have hc0 : 0 ≤ v * s := mul_nonneg hv0 hs0
  have hcv : v * s ≤ v := mul_le_of_le_one_right hv0 hs1
  have hm0 : 0 ≤ v - v * s := by linarith
  have hmod0 : 0 ≤ pymod (h / 60) 2 := pymod_nonneg _ _ (by norm_num)
  have hmod2 : pymod (h / 60) 2 < 2 := pymod_lt _ _ (by norm_num)
  have habs : |pymod (h / 60) 2 - 1| ≤ 1 := abs_le.mpr ⟨by linarith, by linarith⟩
  have habs0 : 0 ≤ |pymod (h / 60) 2 - 1| := abs_nonneg _
  have hx0 : 0 ≤ v * s * (1 - |pymod (h / 60) 2 - 1|) :=
    mul_nonneg hc0 (by linarith)
  have hxc : v * s * (1 - |pymod (h / 60) 2 - 1|) ≤ v * s :=
    mul_le_of_le_one_right hc0 (by linarith)
  obtain ⟨⟨h1a, h1b⟩, ⟨h2a, h2b⟩, ⟨h3a, h3b⟩⟩ :=
    hsvSector_comp_bounds h (v * s) (v * s * (1 - |pymod (h / 60) 2 - 1|)) hc0 hx0 hxc
  refine ⟨⟨?_, ?_⟩, ⟨?_, ?_⟩, ⟨?_, ?_⟩⟩ <;> nlinarith

/-! ### Claim C1 -/

/-- Claim C1 counterexample: `hsv_to_rgb` does not wrap the hue modulo 360
before sector selection — at hue 400 the result (last sector, `(c, 0, x)`)
differs from the result at the wrapped hue 40 (first sector, `(c, x, 0)`). -/
theorem hsv_no_hue_wrap_cex :
    hsv_to_rgb 400 1 1 ≠ hsv_to_rgb (pymod 400 360) 1 1 := by
  have h1 : hsv_to_rgb 400 1 1 = ⟨255, 0, 170⟩ := by with_unfolding_all rfl
  have h2 : hsv_to_rgb (pymod 400 360) 1 1 = ⟨255, 170, 0⟩ := by with_unfolding_all rfl
  rw [h1, h2]
  decide

/-- Claim C1 (amended): no hue wrap is applied; every out-of-range hue falls
through to the final sector branch, so `hsv_to_rgb h s v` agrees with the
conversion of the wrapped hue exactly when the wrapped hue itself lies in the
final sector `[300, 360)`. -/
theorem hsv_hue_wrap_only_in_last_sector (h s v : ℚ)
    (hout : h < 0 ∨ 360 ≤ h) (hwrap : 300 ≤ pymod h 360) :
    hsv_to_rgb h s v = hsv_to_rgb (pymod h 360) s v := by
  have hx : pymod (pymod h 360 / 60) 2 = pymod (h / 60) 2 := by
    have heq : pymod h 360 / 60 = h / 60 - 2 * ((3 * ⌊h / 360⌋ : ℤ) : ℚ) := by
      unfold pymod
      push_cast
      ring
    rw [heq, pymod_sub_two_int]
  have hout' : h < 0 ∨ 300 ≤ h := by
    rcases hout with a | a
    · exact Or.inl a
    · exact Or.inr (by linarith)
  simp only [hsv_to_rgb]
  rw [hsvSector_last _ _ _ hout', hsvSector_last _ _ _ (Or.inr hwrap), hx]

theorem hsv_hue_wrap_only_in_last_sector_witness :
    hsv_to_rgb 700 1 1 = hsv_to_rgb (pymod 700 360) 1 1 :=
  hsv_hue_wrap_only_in_last_sector 700 1 1 (Or.inr (by decide))
    (of_decide_eq_true (by with_unfolding_all rfl))

/-! ### Claim C3 -/

/-- Claim C3 counterexample: at hue 10, saturation 1/2, value 1 the code's
green channel is the truncation `int(148.75) = 148`, not the spec's rounded
value 149 (and blue is 127, not `round(127.5) = 128`). -/
theorem hsv_truncation_cex : hsv_to_rgb 10 (1/2) 1 ≠ specHsvToRgb 10 (1/2) 1 := by
  have h1 : hsv_to_rgb 10 (1/2) 1 = ⟨255, 148, 127⟩ := by with_unfolding_all rfl
  have h2 : specHsvToRgb 10 (1/2) 1 = ⟨255, 149, 128⟩ := by with_unfolding_all rfl
  rw [h1, h2]
  decide

/-- Claim C3 (amended): each output channel of `hsv_to_rgb` is the
truncation `int((component + match) * 255)`, not the rounding: it equals the
spec's rounded-and-clamped channel value or that value minus one, and is
never above it. -/
theorem hsv_truncates_not_rounds (h s v : ℚ)
    (hh0 : 0 ≤ h) (hh1 : h < 360) (hs0 : 0 ≤ s) (hs1 : s ≤ 1)
    (hv0 : 0 ≤ v) (hv1 : v ≤ 1) :
    ((specHsvToRgb h s v).r - 1 ≤ (hsv_to_rgb h s v).r ∧
      (hsv_to_rgb h s v).r ≤ (specHsvToRgb h s v).r) ∧
    ((specHsvToRgb h s v).g - 1 ≤ (hsv_to_rgb h s v).g ∧
      (hsv_to_rgb h s v).g ≤ (specHsvToRgb h s v).g) ∧
    ((specHsvToRgb h s v).b - 1 ≤ (hsv_to_rgb h s v).b ∧
      (hsv_to_rgb h s v).b ≤ (specHsvToRgb h s v).b) := by
  obtain ⟨⟨h1a, h1b⟩, ⟨h2a, h2b⟩, ⟨h3a, h3b⟩⟩ :=
    hsv_exact_bounds h s v hs0 hs1 hv0 hv1
  simp only [hsv_to_rgb, specHsvToRgb]
  exact ⟨roundClamp_chan_rel h1a h1b, roundClamp_chan_rel h2a h2b,
    roundClamp_chan_rel h3a h3b⟩

theorem hsv_truncates_not_rounds_witness :
    ((specHsvToRgb 0 1 1).r - 1 ≤ (hsv_to_rgb 0 1 1).r ∧
      (hsv_to_rgb 0 1 1).r ≤ (specHsvToRgb 0 1 1).r) ∧
    ((specHsvToRgb 0 1 1).g - 1 ≤ (hsv_to_rgb 0 1 1).g ∧
      (hsv_to_rgb 0 1 1).g ≤ (specHsvToRgb 0 1 1).g) ∧
    ((specHsvToRgb 0 1 1).b - 1 ≤ (hsv_to_rgb 0 1 1).b ∧
      (hsv_to_rgb 0 1 1).b ≤ (specHsvToRgb 0 1 1).b) :=
  hsv_truncates_not_rounds 0 1 1 (by decide) (by decide) (by decide) (by decide)
    (by decide) (by decide)

/-! ### Claim C5 -/

/-- Claim C5: for valid colors, blend factor 0 returns exactly the base and
factor 1 returns exactly the highlight; the factor is not clamped (factor 2
extrapolates to channel-overflowing values). -/
theorem blend_factor_endpoints (c1 c2 : RGB) (h1 : c1.valid) (h2 : c2.valid) :
    blend_color c1 c2 0 = c1 ∧ blend_color c1 c2 1 = c2 ∧
    blend_color ⟨0, 0, 0⟩ ⟨255, 255, 255⟩ 2 = ⟨510, 510, 510⟩ :=
  ⟨blend_color_zero c1 c2, blend_color_one c1 c2, by with_unfolding_all rfl⟩

theorem blend_factor_endpoints_witness :
    blend_color ⟨10, 20, 30⟩ ⟨40, 50, 60⟩ 0 = ⟨10, 20, 30⟩ ∧
    blend_color ⟨10, 20, 30⟩ ⟨40, 50, 60⟩ 1 = ⟨40, 50, 60⟩ ∧
    blend_color ⟨0, 0, 0⟩ ⟨255, 255, 255⟩ 2 = ⟨510, 510, 510⟩ :=
  blend_factor_endpoints ⟨10, 20, 30⟩ ⟨40, 50, 60⟩ (by decide) (by decide)

/-! ### Claim C10 -/

/-- Claim C10: for any hue (in range or not) and saturation, value in
`[0, 1]`, every output channel of `hsv_to_rgb` is an integer in `[0, 255]`,
although the code applies no output clamp. -/
theorem hsv_to_rgb_channels_in_range (h s v : ℚ)
    (hs0 : 0 ≤ s) (hs1 : s ≤ 1) (hv0 : 0 ≤ v) (hv1 : v ≤ 1) :
    (hsv_to_rgb h s v).valid := by
  obtain ⟨⟨h1a, h1b⟩, ⟨h2a, h2b⟩, ⟨h3a, h3b⟩⟩ :=
    hsv_exact_bounds h s v hs0 hs1 hv0 hv1
  simp only [hsv_to_rgb, RGB.valid]
  obtain ⟨b1a, b1b⟩ := pyint_chan_bounds h1a h1b
  obtain ⟨b2a, b2b⟩ := pyint_chan_bounds h2a h2b
  obtain ⟨b3a, b3b⟩ := pyint_chan_bounds h3a h3b
  exact ⟨b1a, b1b, b2a, b2b, b3a, b3b⟩

theorem hsv_to_rgb_channels_in_range_witness :
    (hsv_to_rgb 400 1 1).valid :=
  hsv_to_rgb_channels_in_range 400 1 1 (by decide) (by decide) (by decide)
    (by decide)

/-! ### Claim C2 -/

/-- Claim C2 counterexample: at a mode activated at tick 3000 ms, the
elapsed time is 0 (so `(t mod W)/W = 0` and the claimed `wavePos` is 0), but
the code computes the phase from the absolute clock and yields
`wavePos 3000 = 51.3 ≠ 0`. -/
theorem wave_pos_nonzero_at_activation_cex :
    (3000 - 3000) % 10000 = 0 ∧
    wavePos 3000 ≠ ((((3000 - 3000) % 10000 : ℕ) : ℚ) / 10000) * (NUM_LEDS : ℚ) := by
  refine ⟨by decide, ?_⟩
  have h1 : wavePos 3000 = 513 / 10 := by with_unfolding_all rfl
  have h2 : ((((3000 - 3000) % 10000 : ℕ) : ℚ) / 10000) * (NUM_LEDS : ℚ) = 0 := by
    norm_num
  rw [h1, h2]
  norm_num

/-- Claim C2 (amended): the wave phase is `(currentTime mod 10000) / 10000`
on the absolute millisecond clock, not on the elapsed-in-mode time; hence
`wavePos` is zero exactly at absolute times that are multiples of 10 s, it
always lies in `[0, NUM_LEDS)`, and it is periodic with period 10000 ms. -/
theorem wave_pos_absolute_clock (ct : ℕ) :
    (wavePos ct = 0 ↔ ct % 10000 = 0) ∧
    0 ≤ wavePos ct ∧ wavePos ct < NUM_LEDS ∧
    wavePos (ct + 10000) = wavePos ct := by
  have hN : NUM_LEDS = 171 := numLeds_letter_configs
  refine ⟨⟨?_, ?_⟩, ?_, ?_, ?_⟩
  · intro h0
    unfold wavePos at h0
    rcases mul_eq_zero.mp h0 with h1 | h1
    · rcases div_eq_zero_iff.mp h1 with h2 | h2
      · exact_mod_cast h2
      · norm_num at h2
    · rw [hN] at h1
      norm_num at h1
  · intro h0
    unfold wavePos
    rw [h0]
    norm_num
  · unfold wavePos
    positivity
  · unfold wavePos
    have hmod : ct % 10000 < 10000 := Nat.mod_lt ct (by norm_num)
    have hcast : ((ct % 10000 : ℕ) : ℚ) < 10000 := by exact_mod_cast hmod
    have hnn : (0 : ℚ) ≤ ((ct % 10000 : ℕ) : ℚ) := by positivity
    rw [hN, div_mul_eq_mul_div, div_lt_iff (by norm_num : (0 : ℚ) < 10000)]
    push_cast
    nlinarith
  · unfold wavePos
    rw [Nat.add_mod_right]

/-! ### Claim C8 -/

/-- Claim C8: in one wave frame, an LED at distance at least 3 from the
wave position is exactly warm white; an LED at distance below 3 is the blend
of warm white toward the palette color `wave_colors[int(wave_pos) mod 3]`
with factor `1 - distance/3`; an LED exactly at the wave position shows the
full wave color. -/
theorem wave_frame_colors (ct i : ℕ) (hi : i < NUM_LEDS) :
    (3 ≤ |(i : ℚ) - wavePos ct| → (waveFrame ct)[i]? = some warm_white) ∧
    (|(i : ℚ) - wavePos ct| < 3 →
      (waveFrame ct)[i]? =
        some (blend_color warm_white (waveColor ct)
          (1 - |(i : ℚ) - wavePos ct| / 3))) ∧
    ((i : ℚ) = wavePos ct → (waveFrame ct)[i]? = some (waveColor ct)) := by
  have hget : (waveFrame ct)[i]? = some (waveLedColor ct i) := by
    unfold waveFrame
    rw [List.getElem?_map, List.getElem?_range hi]
    rfl
  refine ⟨?_, ?_, ?_⟩
  · intro hd
    rw [hget]
    simp only [waveLedColor]
    rw [if_neg (not_lt.mpr hd)]
  · intro hd
    rw [hget]
    simp only [waveLedColor]
    rw [if_pos hd]
  · intro heq
    rw [hget]
    simp only [waveLedColor, ← heq, sub_self, abs_zero]
    norm_num [blend_color_one]

theorem wave_frame_colors_witness :
    (waveFrame 0)[5]? = some warm_white :=
  (wave_frame_colors 0 5 (by decide)).1
    (of_decide_eq_true (by with_unfolding_all rfl))

/-! ### Claim C9 -/

/-- Claim C9: `NUM_LEDS` is one plus the maximum LED index across the
reference segments (171), and for every configuration each segment index
lies strictly below the derived count. -/
theorem strip_length_is_one_plus_max_index :
    numLeds letter_configs = 171 ∧
    ∀ (configs : List LetterConfig), ∀ cfg ∈ configs, ∀ i ∈ cfg.leds,
      i < numLeds configs := by
  refine ⟨numLeds_letter_configs, ?_⟩
  intro configs cfg hcfg i hi
  have hne : cfg.leds ≠ [] := List.ne_nil_of_mem hi
  have h1 : i ≤ listMax cfg.leds := le_listMax cfg.leds i hi
  have h2 : listMax cfg.leds + 1 ≤ numLeds configs :=
    foldl_numLedsStep_mem configs 0 cfg hcfg hne
  omega

theorem strip_length_is_one_plus_max_index_witness :
    5 < numLeds letter_configs :=
  strip_length_is_one_plus_max_index.2 letter_configs ⟨"A", List.range' 0 19⟩
    (by decide) 5 (by decide)

/-! ### Fade-mode helper lemmas -/

lemma pyintR_nonneg_eq_floor {x : ℝ} (h : 0 ≤ x) : pyintR x = ⌊x⌋ := if_pos h

lemma fadePasses_length (configs : List LetterConfig) (phases : List ℝ)
    (t : ℝ) :
    (fadePasses configs phases t).length = min configs.length phases.length := by
  unfold fadePasses
  rw [List.length_map, List.length_zip]

lemma fadePasses_get (configs : List LetterConfig) (phases : List ℝ) (t : ℝ)
    (j : ℕ) (hj1 : j < configs.length) (hj2 : j < phases.length)
    (hj : j < (fadePasses configs phases t).length) :
    (fadePasses configs phases t).get ⟨j, hj⟩ =
      (fadeScaled (colorMap (configs.get ⟨j, hj1⟩).letter)
          (brightness t (phases.get ⟨j, hj2⟩)),
        (configs.get ⟨j, hj1⟩).leds) := by
  unfold fadePasses
  simp [List.get_eq_getElem, List.getElem_map, List.getElem_zip]

/-! ### Claim C6 -/

/-- Claim C6: the fade brightness `(sin(2π t/5 + phase) + 1)/2` lies in
`[0, 1]` for every time and phase offset, and is periodic in `t` with
period 5 seconds. -/
theorem brightness_bounded_and_periodic (t phase : ℝ) :
    0 ≤ brightness t phase ∧ brightness t phase ≤ 1 ∧
    brightness (t + 5) phase = brightness t phase := by
  refine ⟨?_, ?_, ?_⟩
  · unfold brightness
    have := Real.neg_one_le_sin (2 * Real.pi * (t / 5) + phase)
    linarith
  · unfold brightness
    have := Real.sin_le_one (2 * Real.pi * (t / 5) + phase)
    linarith
  · unfold brightness
    have harg : 2 * Real.pi * ((t + 5) / 5) + phase =
        (2 * Real.pi * (t / 5) + phase) + 2 * Real.pi := by ring
    rw [harg, Real.sin_add_two_pi]

/-! ### Claim C7 -/

/-- Claim C7: in a fade frame over the reference configuration, every LED of
segment `k` receives the identical color — the segment's base color scaled
by its brightness with integer truncation; at `t = 0` with phase 0 the
brightness is 1/2 and base color `(255, 0, 0)` scales to `(127, 0, 0)`; at
any angle `2π t/5 + phase = π/2` the brightness is 1 and the full base color
is output. -/
theorem fade_segment_uniform_color :
    (∀ (phases : List ℝ) (t : ℝ) (buf : List RGB) (k led : ℕ)
      (hk : k < letter_configs.length) (hpk : k < phases.length),
      buf.length = NUM_LEDS →
      led ∈ (letter_configs.get ⟨k, hk⟩).leds →
      (fadeFrame letter_configs phases t buf)[led]? =
        some (fadeScaled (colorMap (letter_configs.get ⟨k, hk⟩).letter)
          (brightness t (phases.get ⟨k, hpk⟩)))) ∧
    brightness 0 0 = 1 / 2 ∧
    fadeScaled ⟨255, 0, 0⟩ (brightness 0 0) = ⟨127, 0, 0⟩ ∧
    (∀ (t phase : ℝ), 2 * Real.pi * (t / 5) + phase = Real.pi / 2 →
      brightness t phase = 1) ∧
    (∀ c : RGB, fadeScaled c 1 = c) := by
  have hb : brightness 0 0 = 1 / 2 := by
    unfold brightness
    have h0 : 2 * Real.pi * ((0 : ℝ) / 5) + 0 = 0 := by ring
    rw [h0, Real.sin_zero]
    norm_num
  refine ⟨?_, hb, ?_, ?_, ?_⟩
  · intro phases t buf k led hk hpk hbuf hmem
    have hps : k < (fadePasses letter_configs phases t).length := by
      rw [fadePasses_length]
      exact lt_min hk hpk
    have hpget := fadePasses_get letter_configs phases t k hk hpk hps
    have hmem' : led ∈ ((fadePasses letter_configs phases t).get ⟨k, hps⟩).2 := by
      rw [hpget]
      exact hmem
    have hlater : ∀ j (hj : j < (fadePasses letter_configs phases t).length),
        k < j → led ∉ ((fadePasses letter_configs phases t).get ⟨j, hj⟩).2 := by
      intro j hj hkj
      have hj' := hj
      rw [fadePasses_length] at hj'
      have hj1 : j < letter_configs.length := lt_of_lt_of_le hj' (min_le_left _ _)
      have hj2 : j < phases.length := lt_of_lt_of_le hj' (min_le_right _ _)
      rw [fadePasses_get letter_configs phases t j hj1 hj2 hj]
      exact letter_configs_disjoint k hk j hj1 (by omega) led hmem
    have hlen : led < buf.length := by
      rw [hbuf]
      have h171 : led < 171 := letter_configs_leds_lt k hk led hmem
      have hN : NUM_LEDS = 171 := numLeds_letter_configs
      omega
    have key := runPasses_getElem?_idx (fadePasses letter_configs phases t)
      buf k led hps hmem' hlater hlen
    unfold fadeFrame
    rw [key, hpget]
  · rw [hb]
    unfold fadeScaled
    have h255 : pyintR (((255 : ℤ) : ℝ) * (1 / 2)) = 127 := by
      rw [pyintR_nonneg_eq_floor (by norm_num), Int.floor_eq_iff]
      constructor <;> norm_num
    have hz : pyintR (((0 : ℤ) : ℝ) * (1 / 2)) = 0 := by
      rw [pyintR_nonneg_eq_floor (by norm_num)]
      norm_num
    rw [h255, hz]
  · intro t phase hangle
    unfold brightness
    rw [hangle, Real.sin_pi_div_two]
    norm_num
  · intro c
    unfold fadeScaled
    rw [mul_one, mul_one, mul_one, pyintR_intCast, pyintR_intCast, pyintR_intCast]

set_option maxRecDepth 4000 in
theorem fade_segment_uniform_color_witness :
    (fadeFrame letter_configs (List.replicate 9 (0 : ℝ)) 0
        (List.replicate 171 (⟨0, 0, 0⟩ : RGB)))[5]? =
      some (fadeScaled (colorMap ((letter_configs.get ⟨0, by decide⟩)).letter)
        (brightness 0 ((List.replicate 9 (0 : ℝ)).get ⟨0, by decide⟩))) :=
  fade_segment_uniform_color.1 (List.replicate 9 0) 0
    (List.replicate 171 ⟨0, 0, 0⟩) 0 5 (by decide) (by decide) (by decide)
    (by decide)

/-! ### Claim C4 -/

/-- Claim C4 counterexample: for a segment configuration that does not cover
every strip position (one segment with indices 0 and 2, derived strip length
3), a fade frame does not write position 1 — it keeps the previous buffer
contents there. -/
theorem fade_frame_skips_uncovered_position_cex :
    1 < numLeds [⟨"A", [0, 2]⟩] ∧
    1 ∉ fadeWrittenIndices [⟨"A", [0, 2]⟩] ∧
    (fadeFrame [⟨"A", [0, 2]⟩] [(0 : ℝ)] 0
        (List.replicate 3 (⟨7, 7, 7⟩ : RGB)))[1]? = some ⟨7, 7, 7⟩ := by
  refine ⟨by decide, by decide, ?_⟩
  rw [fadeFrame_getElem?_notWritten _ _ _ _ _ (by decide)]
  simp [List.getElem?_replicate]

set_option maxRecDepth 8000 in
/-- Claim C4 (amended): each fade frame writes exactly the indices listed in
the segments.  For the reference configuration these cover every strip
position in `[0, NUM_LEDS)`, so the whole frame is recomputed; for a
non-covering configuration, any position outside the segments keeps its
previous buffer contents. -/
theorem fade_frame_writes_segment_indices :
    (∀ i, i < NUM_LEDS → i ∈ fadeWrittenIndices letter_configs) ∧
    (∀ (configs : List LetterConfig) (phases : List ℝ) (t : ℝ)
        (buf : List RGB) (i : ℕ), i ∉ fadeWrittenIndices configs →
        (fadeFrame configs phases t buf)[i]? = buf[i]?) := by
  constructor
  · decide
  · intro configs phases t buf i h
    exact fadeFrame_getElem?_notWritten configs phases t buf i h

theorem fade_frame_writes_segment_indices_witness :
    (170 ∈ fadeWrittenIndices letter_configs) ∧
    (fadeFrame [⟨"W", [0, 2]⟩] [(0 : ℝ)] 0
        (List.replicate 3 (⟨9, 9, 9⟩ : RGB)))[1]? =
      (List.replicate 3 (⟨9, 9, 9⟩ : RGB))[1]? :=
  ⟨fade_frame_writes_segment_indices.1 170 (by decide),
    fade_frame_writes_segment_indices.2 _ _ _ _ 1 (by decide)⟩
